import Mathlib

/-
  A verification development for the memory-tag pass of smatch
  (`smatch_mtag.c`).  The pass derives stable 63-bit identifiers ("tags")
  for memory objects by hashing context strings with MD5, binds per-variable
  tag states at allocation sites, tags file-scope symbols, resolves simple
  address expressions to toplevel tags, and propagates tags across call
  boundaries through a caller-summary store.

  The embedding below mirrors the C source.  C strings are modelled as byte
  lists (`List Nat`, each entry one byte); `snprintf` into a fixed buffer of
  size N is modelled as truncation to the first N-1 bytes; machine integers
  are `Nat`/`Int` with explicit reductions modulo 2^32 / 2^64 where the C
  types overflow.  The target platform is the one smatch is built for
  (little-endian, 64-bit `long long`), which fixes the byte order used when
  the first eight digest bytes are reinterpreted as an integer.
-/

set_option maxRecDepth 40000

/-! ## Model of the external MD5 primitive

`smatch_mtag.c` calls OpenSSL's `MD5_Init`/`MD5_Update`/`MD5_Final`.  That
primitive is outside this repository, so it is embedded here directly from
its standard definition (RFC 1321): pad the message, then run 64 rounds per
512-bit block over a four-word state.  The model was checked against known
MD5 digests of the empty string, one-block and multi-block inputs. -/

def mask32 : Nat := 4294967295

def rotl32 (x n : Nat) : Nat :=
  ((x <<< n) ||| (x >>> (32 - n))) &&& mask32

def md5K : List Nat :=
  [0xd76aa478, 0xe8c7b756, 0x242070db, 0xc1bdceee,
   0xf57c0faf, 0x4787c62a, 0xa8304613, 0xfd469501,
   0x698098d8, 0x8b44f7af, 0xffff5bb1, 0x895cd7be,
   0x6b901122, 0xfd987193, 0xa679438e, 0x49b40821,
   0xf61e2562, 0xc040b340, 0x265e5a51, 0xe9b6c7aa,
   0xd62f105d, 0x02441453, 0xd8a1e681, 0xe7d3fbc8,
   0x21e1cde6, 0xc33707d6, 0xf4d50d87, 0x455a14ed,
   0xa9e3e905, 0xfcefa3f8, 0x676f02d9, 0x8d2a4c8a,
   0xfffa3942, 0x8771f681, 0x6d9d6122, 0xfde5380c,
   0xa4beea44, 0x4bdecfa9, 0xf6bb4b60, 0xbebfbc70,
   0x289b7ec6, 0xeaa127fa, 0xd4ef3085, 0x04881d05,
   0xd9d4d039, 0xe6db99e5, 0x1fa27cf8, 0xc4ac5665,
   0xf4292244, 0x432aff97, 0xab9423a7, 0xfc93a039,
   0x655b59c3, 0x8f0ccc92, 0xffeff47d, 0x85845dd1,
   0x6fa87e4f, 0xfe2ce6e0, 0xa3014314, 0x4e0811a1,
   0xf7537e82, 0xbd3af235, 0x2ad7d2bb, 0xeb86d391]

def md5S : List Nat :=
  [7, 12, 17, 22, 7, 12, 17, 22, 7, 12, 17, 22, 7, 12, 17, 22,
   5, 9, 14, 20, 5, 9, 14, 20, 5, 9, 14, 20, 5, 9, 14, 20,
   4, 11, 16, 23, 4, 11, 16, 23, 4, 11, 16, 23, 4, 11, 16, 23,
   6, 10, 15, 21, 6, 10, 15, 21, 6, 10, 15, 21, 6, 10, 15, 21]

structure MD5St where
  a : Nat
  b : Nat
  c : Nat
  d : Nat
  deriving DecidableEq

/-- `k` bytes of `v`, least significant byte first (little-endian). -/
def leBytes : Nat → Nat → List Nat
  | 0, _ => []
  | k + 1, v => (v % 256) :: leBytes k (v / 256)

/-- Group a byte list into 32-bit words, little-endian within each word. -/
def wordsOf : List Nat → List Nat
  | b0 :: b1 :: b2 :: b3 :: rest =>
      (b0 + 256 * b1 + 65536 * b2 + 16777216 * b3) :: wordsOf rest
  | _ => []

def md5Round (M : List Nat) (st : MD5St) (i : Nat) : MD5St :=
  let fg : Nat × Nat :=
    if i < 16 then ((st.b &&& st.c) ||| ((st.b ^^^ mask32) &&& st.d), i)
    else if i < 32 then ((st.d &&& st.b) ||| ((st.d ^^^ mask32) &&& st.c), (5 * i + 1) % 16)
    else if i < 48 then (st.b ^^^ st.c ^^^ st.d, (3 * i + 5) % 16)
    else (st.c ^^^ (st.b ||| (st.d ^^^ mask32)), (7 * i) % 16)
  let f := (fg.1 + st.a + md5K.getD i 0 + M.getD fg.2 0) % 4294967296
  ⟨st.d, (st.b + rotl32 f (md5S.getD i 0)) % 4294967296, st.b, st.c⟩

def md5Block (st : MD5St) (blk : List Nat) : MD5St :=
  let M := wordsOf blk
  let r := (List.range 64).foldl (md5Round M) st
  ⟨(st.a + r.a) % 4294967296, (st.b + r.b) % 4294967296,
   (st.c + r.c) % 4294967296, (st.d + r.d) % 4294967296⟩

/-- Split a byte list into successive 64-byte blocks. -/
def chunk64 (acc : List Nat) (n : Nat) : List Nat → List (List Nat)
  | [] => if acc.isEmpty then [] else [acc.reverse]
  | b :: rest =>
      if n = 63 then (b :: acc).reverse :: chunk64 [] 0 rest
      else chunk64 (b :: acc) (n + 1) rest

/-- MD5 padding: a 0x80 byte, zeros to 56 mod 64, then the bit length as
eight little-endian bytes. -/
def padBytes (msg : List Nat) : List Nat :=
  msg ++ 128 :: List.replicate ((64 - (msg.length + 9) % 64) % 64) 0
      ++ leBytes 8 (8 * msg.length)

def md5init : MD5St := ⟨0x67452301, 0xefcdab89, 0x98badcfe, 0x10325476⟩

/-- The 16-byte MD5 digest of a byte string. -/
def md5 (msg : List Nat) : List Nat :=
  let st := (chunk64 [] 0 (padBytes msg)).foldl md5Block md5init
  leBytes 4 st.a ++ leBytes 4 st.b ++ leBytes 4 st.c ++ leBytes 4 st.d

/-! ## Tag derivation: `str_to_tag` -/

/-- The value of `~(1ULL << 63)`: all 64 bits set except the sign bit. -/
def msbMask : Nat := (2 ^ 64 - 1) - (1 <<< 63)

/-- Read a byte list as a little-endian natural number. -/
def leNat : List Nat → Nat
  | [] => 0
  | b :: rest => b + 256 * leNat rest

/-- `str_to_tag` from `smatch_mtag.c`: MD5 the string, reinterpret the first
eight digest bytes as an `unsigned long long` (little-endian on the target),
and clear the most significant bit. -/
def str_to_tag (s : List Nat) : Nat :=
  leNat ((md5 s).take 8) &&& msbMask

/-- Bytes of an ASCII character list (the model of a C string literal). -/
def strBytes (cs : List Char) : List Nat := cs.map Char.toNat

/-! ## Decimal rendering (`snprintf` with `%lld`) and parsing (`atoll`) -/

/-- Little-endian decimal digits of `n`; the first argument is fuel, always
called with `fuel = n`, which is enough for every digit. -/
def decAux : Nat → Nat → List Nat
  | 0, _ => []
  | _ + 1, 0 => []
  | fuel + 1, n + 1 => ((n + 1) % 10) :: decAux fuel ((n + 1) / 10)

def decDigits (n : Nat) : List Nat := decAux n n

/-- The usual decimal rendering of a natural number, as ASCII bytes. -/
def renderNat (n : Nat) : List Nat :=
  if n = 0 then [48] else (decDigits n).reverse.map (fun d => d + 48)

/-- `snprintf(buf, ..., "%lld", t)` where `t` is the 64-bit pattern of an
`mtag_t`: values with the top bit set print as negative numbers. -/
def sprintfLLD (t : Nat) : List Nat :=
  if t < 2 ^ 63 then renderNat t else 45 :: renderNat (2 ^ 64 - t)

def isDigitByte (b : Nat) : Bool := Nat.ble 48 b && Nat.ble b 57

def isSpaceByte (b : Nat) : Bool := (b == 32) || (Nat.ble 9 b && Nat.ble b 13)

def parseDigitsAcc : List Nat → Nat → Nat
  | b :: rest, acc =>
      if isDigitByte b then parseDigitsAcc rest (acc * 10 + (b - 48)) else acc
  | [], acc => acc

/-- The C library `atoll`: skip whitespace, optional sign, leading digits.
(The inputs produced by this pass never overflow `long long`.) -/
def atoll (s : List Nat) : Int :=
  match s.dropWhile isSpaceByte with
  | [] => 0
  | b :: rest =>
      if b = 45 then - (parseDigitsAcc rest 0 : Int)
      else if b = 43 then (parseDigitsAcc rest 0 : Int)
      else (parseDigitsAcc (b :: rest) 0 : Int)

/-- Value of a little-endian decimal digit list (proof-side helper). -/
def ofDigitsLE : List Nat → Nat
  | [] => 0
  | d :: rest => d + 10 * ofDigitsLE rest

/-! ## The per-variable tag state -/

/-- The slice of `struct smatch_state` this pass uses: `name` is the display
string and `data` the stored `mtag_t` (absent models a NULL data pointer). -/
structure SmatchState where
  name : List Nat
  data : Option Nat
  deriving DecidableEq

/-- `alloc_tag_state`: display name is `snprintf(buf, 64, "%lld", tag)`
(truncation to 63 bytes can never bite: see
`alloc_tag_state_name`), data holds the tag itself. -/
def alloc_tag_state (tag : Nat) : SmatchState :=
  { name := (sprintfLLD tag).take 63, data := some tag }

/-! ## Symbols and expressions -/

/-- The slice of sparse's `struct symbol` that `get_toplevel_mtag` reads:
the identifier (if any), the `MOD_TOPLEVEL` bit and the `MOD_STATIC` bit of
`ctype.modifiers`. -/
structure CSymbol where
  ident : Option (List Nat)
  toplevel : Bool
  isStatic : Bool
  deriving DecidableEq

/-- The slice of sparse's expression tree used by this pass.  `symbol`
carries the (possibly NULL) `expr->symbol` pointer; `preop` covers unary
operators such as address-of (op 38, ASCII `&`) and dereference (op 42);
`deref` is member access; `paren`/`cast` are the wrappers removed by
`strip_expr`. -/
inductive Expr where
  | symbol (s : Option CSymbol)
  | preop (op : Nat) (inner : Expr)
  | deref (base : Expr) (member : List Nat)
  | binop (op : Nat) (lhs rhs : Expr)
  | call (fn : Expr) (args : List Expr)
  | assign (op : Nat) (lhs rhs : Expr)
  | paren (inner : Expr)
  | cast (inner : Expr)
  | value (v : Int)

/-- Modelled from the spec: the external expression-simplification
collaborator `strip_expr`, which "strips parentheses/cast wrappers" from an
expression (its implementation lives outside this repository). -/
def strip_expr : Expr → Expr
  | .paren e => strip_expr e
  | .cast e => strip_expr e
  | e => e

/-! ## Toplevel symbol tagging: `get_toplevel_mtag` -/

def externBytes : List Nat := strBytes ['e', 'x', 't', 'e', 'r', 'n']

/-- `"%s %s"`: the two pieces joined by a single space. -/
def fmt2 (a b : List Nat) : List Nat := a ++ 32 :: b

/-- `"%s %s %s %s"`: the four pieces joined by single spaces. -/
def fmt4 (a b c d : List Nat) : List Nat := a ++ 32 :: b ++ 32 :: c ++ 32 :: d

/-- `get_toplevel_mtag` from `smatch_mtag.c`.  `filename` models the ambient
`get_filename()`.  Returns nothing for a NULL symbol, a symbol without an
identifier, or one without `MOD_TOPLEVEL`; otherwise hashes
`"<qualifier> <name>"` rendered into a 256-byte buffer (so truncated to 255
bytes), where the qualifier is the file name for `MOD_STATIC` symbols and
the literal token for external linkage otherwise. -/
def get_toplevel_mtag (filename : List Nat) (sym : Option CSymbol) : Option Nat :=
  match sym with
  | none => none
  | some s =>
    match s.ident with
    | none => none
    | some nm =>
      if s.toplevel then
        some (str_to_tag ((fmt2 (if s.isStatic then filename else externBytes) nm).take 255))
      else none

/-! ## Allocation-site tagging: `alloc_assign` -/

/-- The ambient analysis position: `get_filename()` and `get_function()`. -/
structure AllocCtx where
  filename : List Nat
  function : List Nat

/-- One `sql_insert_mtag_about(tag, left_name, right_name)` row.  The name
arguments are the (possibly NULL) rendered strings. -/
structure MtagAboutRow where
  tag : Nat
  left : Option (List Nat)
  right : Option (List Nat)
  deriving DecidableEq

/-- The observable effects of one `alloc_assign` invocation: the metadata
rows inserted and the `set_state` calls performed (state name, enclosing
symbol, state). -/
structure AllocEffect where
  metadata : List MtagAboutRow
  sets : List (List Nat × Nat × SmatchState)
  deriving DecidableEq

/-- glibc renders a NULL `%s` argument as `(null)`; used when
`expr_to_str_sym`/`expr_to_str` return NULL but the string is formatted
anyway. -/
def cstr (s : Option (List Nat)) : List Nat :=
  s.getD (strBytes ['(', 'n', 'u', 'l', 'l', ')'])

/-- `alloc_assign` from `smatch_mtag.c`.  `renderLS` models
`expr_to_str_sym` (rendered name plus enclosing symbol, either possibly
NULL), `renderR` models `expr_to_str`; both are external collaborators.
`fn` is the allow-listed function name the hook fired for (unused by the
body, as in the C).  Triggers only on a plain `=` assignment (op 61) whose
stripped right side is a call with an `EXPR_SYMBOL` callee; then hashes the
context string rendered into a 256-byte buffer, always inserts one metadata
row, and binds the tag state only when both the destination name and its
symbol resolved. -/
def alloc_assign (ctx : AllocCtx) (renderLS : Expr → Option (List Nat) × Option Nat)
    (renderR : Expr → Option (List Nat)) (fn : List Nat) (e : Expr) : AllocEffect :=
  match e with
  | .assign op l r =>
    if op = 61 then
      match strip_expr r with
      | .call (.symbol _) _ =>
        let left_name := (renderLS (strip_expr l)).1
        let left_sym := (renderLS (strip_expr l)).2
        let right_name := renderR (strip_expr r)
        let tag := str_to_tag
          ((fmt4 ctx.filename ctx.function (cstr left_name) (cstr right_name)).take 255)
        { metadata := [⟨tag, left_name, right_name⟩],
          sets :=
            match left_name, left_sym with
            | some ln, some ls => [(ln, ls, alloc_tag_state tag)]
            | _, _ => [] }
      | _ => ⟨[], []⟩
    else ⟨[], []⟩
  | _ => ⟨[], []⟩

/-! ## Address expression resolution: `get_mtag` -/

/-- `get_mtag` from `smatch_mtag.c`: strip wrappers, strip one leading
address-of (op 38), and if a direct symbol reference remains delegate to
`get_toplevel_mtag`; anything else resolves to nothing. -/
def get_mtag (filename : List Nat) (e : Expr) : Option Nat :=
  match strip_expr e with
  | .preop 38 inner =>
    match strip_expr inner with
    | .symbol s => get_toplevel_mtag filename s
    | _ => none
  | .symbol s => get_toplevel_mtag filename s
  | _ => none

/-! ## Interprocedural propagation: `match_call_info` / `save_caller_info` -/

/-- One `sql_insert_caller_info(expr, MEMORY_TAG, i, "$", value)` row for
the enclosing call expression: zero-based argument position, key and value
(byte 36 is the dollar sign). -/
structure CallerEntry where
  param : Nat
  key : List Nat
  value : List Nat
  deriving DecidableEq

/-- The argument loop of `match_call_info`: `i` starts at -1 in C and is
incremented at the top of each iteration, so the first argument has
position 0; arguments whose state is missing or has NULL data are
skipped. -/
def match_call_aux (lookup : Expr → Option SmatchState) : Nat → List Expr → List CallerEntry
  | _, [] => []
  | i, a :: rest =>
    match lookup a with
    | some st =>
        if st.data.isSome then ⟨i, [36], st.name⟩ :: match_call_aux lookup (i + 1) rest
        else match_call_aux lookup (i + 1) rest
    | none => match_call_aux lookup (i + 1) rest

/-- `expr->args` of a call expression. -/
def argsOf : Expr → List Expr
  | .call _ args => args
  | _ => []

/-- `match_call_info` from `smatch_mtag.c`: `lookup` models
`get_state_expr(my_id, ·)` against the external state store.  Returns the
caller-summary rows it inserts. -/
def match_call_info (lookup : Expr → Option SmatchState) (e : Expr) : List CallerEntry :=
  match_call_aux lookup 0 (argsOf e)

/-- The per-variable state store restricted to this pass: bindings of
(state name, enclosing symbol id) to a state, most recent first. -/
abbrev Store := List (List Nat × Nat × SmatchState)

/-- `set_state(my_id, name, sym, state)` against the external store. -/
def set_state (name : List Nat) (sym : Nat) (st : SmatchState) (store : Store) : Store :=
  (name, sym, st) :: store

/-- `save_caller_info` from `smatch_mtag.c`: ignore keys not starting with
the dollar byte; otherwise decode the decimal value with `atoll` (the
result is converted back to the unsigned `mtag_t`, hence the reduction
modulo 2^64), build `"<name><key+1>"` in a 256-byte buffer, and install a
fresh tag state under that name scoped to `sym`. -/
def save_caller_info (name : List Nat) (sym : Nat) (key value : List Nat)
    (store : Store) : Store :=
  if key.take 1 = [36] then
    set_state ((name ++ key.drop 1).take 255) sym
      (alloc_tag_state ((atoll value % (2 ^ 64 : Int)).toNat)) store
  else store

/-! ## The disabled return-value propagation stub -/

/-- `db_returns_buf_size` from `smatch_mtag.c`: `parseMath` models the
external `parse_call_math_rl`.  The function checks the assignment shape
and parses the size expression, but its state update is commented out in
the source, so the store is returned unchanged on every path. -/
def db_returns_buf_size (parseMath : Expr → List Nat → Option Unit)
    (e : Expr) (param : Int) (math : List Nat) (store : Store) : Store :=
  match e with
  | .assign _ _ r =>
    match parseMath (strip_expr r) math with
    | some _ => store
    | none => store
  | _ => store

/-! ## Concrete inputs used by witnesses and counterexamples -/

def drvFileB : List Nat := strBytes ['d', 'r', 'v', '.', 'c']

def probeB : List Nat := strBytes ['p', 'r', 'o', 'b', 'e']

def dNameB : List Nat := strBytes ['d']

def allocDevB : List Nat :=
  strBytes ['a', 'l', 'l', 'o', 'c', '_', 'd', 'e', 'v', '(', ')']

def drvCtx : AllocCtx := ⟨drvFileB, probeB⟩

/-- The full documented context string of the spec's allocation example. -/
def drvContextB : List Nat :=
  strBytes ['d', 'r', 'v', '.', 'c', ' ', 'p', 'r', 'o', 'b', 'e', ' ', 'd', ' ',
            'a', 'l', 'l', 'o', 'c', '_', 'd', 'e', 'v', '(', ')']

/-- A 300-byte rendered name, long enough to overflow every 256-byte
formatting buffer in the pass. -/
def longNameB : List Nat := List.replicate 300 97

def acFileB : List Nat := strBytes ['a', '.', 'c']

def bcFileB : List Nat := strBytes ['b', '.', 'c']

def fooB : List Nat := strBytes ['f', 'o', 'o']

/-- A concrete `d = alloc_dev();` style assignment (rendering is supplied
separately through the renderer functions). -/
def assignW : Expr := .assign 61 (.symbol none) (.call (.symbol none) [])

def renderLSW : Expr → Option (List Nat) × Option Nat := fun _ => (some dNameB, some 0)

def renderRW : Expr → Option (List Nat) := fun _ => some allocDevB

/-- A renderer whose destination name resolves but whose enclosing symbol
does not (for example a destination smatch can print but not scope). -/
def renderLSNoSym : Expr → Option (List Nat) × Option Nat := fun _ => (some dNameB, none)

/-- A renderer producing an over-long rendered source expression. -/
def renderRLong : Expr → Option (List Nat) := fun _ => some longNameB

def lookupW : Expr → Option SmatchState := fun _ => some (alloc_tag_state 7)

/-! ## Helper lemmas -/

theorem msbMask_eq : msbMask = 2 ^ 63 - 1 := by decide

/-- Every tag produced by `str_to_tag` has its sign bit clear. -/
theorem str_to_tag_lt (s : List Nat) : str_to_tag s < 2 ^ 63 := by
  have h1 : str_to_tag s ≤ 2 ^ 63 - 1 := by
    rw [str_to_tag, msbMask_eq]
    exact Nat.and_le_right
  have h2 : (2 : Nat) ^ 63 - 1 < 2 ^ 63 := by norm_num
  exact lt_of_le_of_lt h1 h2

theorem decAux_ofDigits (fuel : Nat) : ∀ n, n ≤ fuel → ofDigitsLE (decAux fuel n) = n := by
  induction fuel with
  | zero =>
    intro n hn
    interval_cases n
    rfl
  | succ fuel ih =>
    intro n hn
    cases n with
    | zero => rfl
    | succ m =>
      have hdiv : (m + 1) / 10 ≤ fuel := by
        have h1 : (m + 1) / 10 < m + 1 := Nat.div_lt_self (Nat.succ_pos m) (by norm_num)
        omega
      simp only [decAux, ofDigitsLE]
      rw [ih _ hdiv]
      exact Nat.mod_add_div (m + 1) 10

theorem decAux_lt_ten (fuel : Nat) : ∀ n, ∀ d ∈ decAux fuel n, d < 10 := by
  induction fuel with
  | zero => intro n d hd; simp [decAux] at hd
  | succ fuel ih =>
    intro n d hd
    cases n with
    | zero => simp [decAux] at hd
    | succ m =>
      simp only [decAux, List.mem_cons] at hd
      rcases hd with h | h
      · subst h; exact Nat.mod_lt _ (by norm_num)
      · exact ih _ d h

theorem decAux_length_le (fuel : Nat) :
    ∀ n k, n < 10 ^ k → (decAux fuel n).length ≤ k := by
  induction fuel with
  | zero => intro n k _; simp [decAux]
  | succ fuel ih =>
    intro n k hn
    cases n with
    | zero => simp [decAux]
    | succ m =>
      cases k with
      | zero => simp at hn
      | succ j =>
        simp only [decAux, List.length_cons]
        have hdiv : (m + 1) / 10 < 10 ^ j := by
          rw [Nat.div_lt_iff_lt_mul (by norm_num : (0 : Nat) < 10)]
          calc m + 1 < 10 ^ (j + 1) := hn
            _ = 10 ^ j * 10 := by ring
        exact Nat.succ_le_succ (ih _ _ hdiv)

theorem renderNat_digit_bytes (n : Nat) : ∀ b ∈ renderNat n, 48 ≤ b ∧ b ≤ 57 := by
  intro b hb
  rw [renderNat] at hb
  split at hb
  · simp at hb; omega
  · simp only [List.mem_map, List.mem_reverse] at hb
    obtain ⟨d, hd, rfl⟩ := hb
    have := decAux_lt_ten _ _ d hd
    omega

theorem renderNat_length_le_20 (n : Nat) (h : n < 10 ^ 20) : (renderNat n).length ≤ 20 := by
  rw [renderNat]
  split
  · simp
  · simpa using decAux_length_le n n 20 h

theorem parseDigitsAcc_digits (L : List Nat) :
    ∀ acc, (∀ d ∈ L, d < 10) →
      parseDigitsAcc (L.map (fun d => d + 48)) acc =
        L.foldl (fun a d => a * 10 + d) acc := by
  induction L with
  | nil => intro acc _; rfl
  | cons d t ih =>
    intro acc hL
    have hd : d < 10 := hL d (by simp)
    have hdig : isDigitByte (d + 48) = true := by
      simp only [isDigitByte, Bool.and_eq_true, Nat.ble_eq]
      omega
    simp only [List.map_cons, parseDigitsAcc, hdig, if_true, List.foldl_cons]
    have : d + 48 - 48 = d := by omega
    rw [this]
    exact ih _ (fun x hx => hL x (by simp [hx]))

theorem foldl_digits_eq_ofDigits (L : List Nat) :
    L.reverse.foldl (fun a d => a * 10 + d) 0 = ofDigitsLE L := by
  rw [List.foldl_reverse]
  induction L with
  | nil => rfl
  | cons d t ih => simp only [List.foldr_cons, ofDigitsLE, ih]; ring

theorem atoll_digit_map (L : List Nat) (h : ∀ d ∈ L, d < 10) :
    atoll (L.map (fun d => d + 48)) =
      ((L.foldl (fun a d => a * 10 + d) 0 : Nat) : Int) := by
  cases L with
  | nil => rfl
  | cons d t =>
    have hd : d < 10 := h d (by simp)
    have h1 : ((d + 48 : Nat) == 32) = false := by
      rw [beq_eq_false_iff_ne]; omega
    have h2 : Nat.ble (d + 48) 13 = false := by
      rw [Bool.eq_false_iff]
      intro hc
      rw [Nat.ble_eq] at hc
      omega
    have hspace : isSpaceByte (d + 48) = false := by
      simp [isSpaceByte, h1, h2]
    rw [atoll]
    simp only [List.map_cons, List.dropWhile_cons, hspace, Bool.false_eq_true, if_false]
    have h45 : ¬(d + 48 = 45) := by omega
    have h43 : ¬(d + 48 = 43) := by omega
    rw [if_neg h45, if_neg h43]
    have hpd := parseDigitsAcc_digits (d :: t) 0 h
    simp only [List.map_cons] at hpd
    rw [hpd]

theorem atoll_renderNat (n : Nat) : atoll (renderNat n) = (n : Int) := by
  by_cases h0 : n = 0
  · subst h0; decide
  · rw [renderNat, if_neg h0]
    have hlt : ∀ d ∈ (decDigits n).reverse, d < 10 := by
      intro d hd
      exact decAux_lt_ten _ _ d (List.mem_reverse.mp hd)
    rw [atoll_digit_map _ hlt, foldl_digits_eq_ofDigits]
    rw [decDigits, decAux_ofDigits n n le_rfl]

theorem two_pow_64_lt : (2 : Nat) ^ 64 < 10 ^ 20 := by norm_num

theorem sprintfLLD_length_le (t : Nat) (h : t < 2 ^ 64) : (sprintfLLD t).length ≤ 21 := by
  rw [sprintfLLD]
  split
  · exact le_trans (renderNat_length_le_20 t (lt_trans h two_pow_64_lt)) (by norm_num)
  · simp only [List.length_cons]
    have : 2 ^ 64 - t < 10 ^ 20 := lt_of_le_of_lt (Nat.sub_le _ _) two_pow_64_lt
    exact Nat.succ_le_succ (renderNat_length_le_20 _ this)

/-- The 64-byte buffer in `alloc_tag_state` never truncates: a 64-bit value
prints as at most 21 characters. -/
theorem alloc_tag_state_name (t : Nat) (h : t < 2 ^ 64) :
    (alloc_tag_state t).name = sprintfLLD t := by
  rw [alloc_tag_state]
  exact List.take_of_length_le (le_trans (sprintfLLD_length_le t h) (by norm_num))

theorem alloc_tag_state_name63 (t : Nat) (h : t < 2 ^ 63) :
    (alloc_tag_state t).name = renderNat t := by
  rw [alloc_tag_state_name t (lt_trans h (by norm_num)), sprintfLLD, if_pos h]

theorem match_call_aux_mem (lookup : Expr → Option SmatchState) (args : List Expr) :
    ∀ i n (arg : Expr) (st : SmatchState), args[i]? = some arg →
      lookup arg = some st → st.data.isSome →
      (⟨n + i, [36], st.name⟩ : CallerEntry) ∈ match_call_aux lookup n args := by
  induction args with
  | nil => intro i n arg st hget; simp at hget
  | cons a rest ih =>
    intro i n arg st hget hst hd
    cases i with
    | zero =>
      simp only [List.getElem?_cons_zero, Option.some.injEq] at hget
      subst hget
      simp [match_call_aux, hst, hd]
    | succ j =>
      simp only [List.getElem?_cons_succ] at hget
      have hmem := ih j (n + 1) arg st hget hst hd
      have harith : n + (j + 1) = (n + 1) + j := by omega
      rw [harith]
      cases hla : lookup a with
      | none => simpa [match_call_aux, hla] using hmem
      | some st2 =>
        by_cases hd2 : st2.data.isSome
        · simp [match_call_aux, hla, hd2, hmem]
        · simpa [match_call_aux, hla, hd2] using hmem

theorem match_call_aux_enumFrom (lookup : Expr → Option SmatchState)
    (h : ∀ a st, lookup a = some st → ∃ t, t < 2 ^ 63 ∧ st = alloc_tag_state t)
    (args : List Expr) :
    ∀ n, match_call_aux lookup n args =
      (args.enumFrom n).filterMap (fun p =>
        match lookup p.2 with
        | some st =>
          match st.data with
          | some t => some ⟨p.1, [36], renderNat t⟩
          | none => none
        | none => none) := by
  induction args with
  | nil => intro n; rfl
  | cons a rest ih =>
    intro n
    rw [List.enumFrom_cons, List.filterMap_cons]
    cases hla : lookup a with
    | none => simp only [match_call_aux, hla, ih]
    | some st =>
      obtain ⟨t, ht, rfl⟩ := h a st hla
      have hname := alloc_tag_state_name63 t ht
      simp only [match_call_aux, hla, alloc_tag_state, Option.isSome_some, if_true]
      rw [ih]
      simp only [alloc_tag_state] at hname
      rw [hname]

/-- Pigeonhole: tags live in a finite space, so some two distinct context
strings (here: two runs of the byte `a` of different lengths) collide. -/
theorem str_to_tag_exists_collision :
    ∃ s1 s2 : List Nat, s1 ≠ s2 ∧ str_to_tag s1 = str_to_tag s2 := by
  obtain ⟨x, y, hxy, he⟩ := Finite.exists_ne_map_eq_of_infinite
    (fun n : Nat => (⟨str_to_tag (List.replicate n 97), str_to_tag_lt _⟩ : Fin (2 ^ 63)))
  refine ⟨List.replicate x 97, List.replicate y 97, ?_, ?_⟩
  · intro hc
    exact hxy (by simpa using congrArg List.length hc)
  · exact congrArg Fin.val he

/-! ## Claim theorems -/

/-- Claim C6: for every input string, `str_to_tag` returns a value with the
most-significant bit clear, i.e. strictly below 2^63. -/
theorem str_to_tag_sign_bit_clear (s : List Nat) : str_to_tag s < 2 ^ 63 :=
  str_to_tag_lt s

/-- Witness for C6 at a concrete context string. -/
theorem str_to_tag_sign_bit_clear_witness :
    str_to_tag (strBytes ['a', '.', 'c', ' ', 'f', 'o', 'o']) < 2 ^ 63 :=
  str_to_tag_sign_bit_clear (strBytes ['a', '.', 'c', ' ', 'f', 'o', 'o'])

/-- Claim C5: `get_mtag` on (the address of) a direct symbol reference,
after stripping wrappers, returns exactly what `get_toplevel_mtag` returns
for that symbol; parentheses and casts are transparent; every other
expression shape — member access, arithmetic, calls, dereference,
constants, address-of anything but a symbol — resolves to nothing. -/
theorem get_mtag_resolves_only_direct_symbols (filename : List Nat) :
    (∀ s, get_mtag filename (.preop 38 (.symbol s)) = get_toplevel_mtag filename s) ∧
    (∀ s, get_mtag filename (.symbol s) = get_toplevel_mtag filename s) ∧
    (∀ s, get_mtag filename (.preop 38 (.paren (.symbol s))) =
      get_toplevel_mtag filename s) ∧
    (∀ e, get_mtag filename (.paren e) = get_mtag filename e) ∧
    (∀ e, get_mtag filename (.cast e) = get_mtag filename e) ∧
    (∀ base m, get_mtag filename (.deref base m) = none) ∧
    (∀ op l r, get_mtag filename (.binop op l r) = none) ∧
    (∀ f args, get_mtag filename (.call f args) = none) ∧
    (∀ e, get_mtag filename (.preop 42 e) = none) ∧
    (∀ v, get_mtag filename (.value v) = none) ∧
    (∀ base m, get_mtag filename (.preop 38 (.deref base m)) = none) ∧
    (∀ op e, get_mtag filename (.preop 38 (.preop op e)) = none) :=
  ⟨fun _ => rfl, fun _ => rfl, fun _ => rfl, fun _ => rfl, fun _ => rfl,
   fun _ _ => rfl, fun _ _ _ => rfl, fun _ _ => rfl, fun _ => rfl, fun _ => rfl,
   fun _ _ => rfl, fun _ _ => rfl⟩

/-- Witness for C5: the resolver at the spec's example shapes. -/
theorem get_mtag_resolves_only_direct_symbols_witness :
    get_mtag acFileB (.preop 38 (.symbol (some ⟨some fooB, true, true⟩))) =
      get_toplevel_mtag acFileB (some ⟨some fooB, true, true⟩) :=
  (get_mtag_resolves_only_direct_symbols acFileB).1 (some ⟨some fooB, true, true⟩)

/-- Claim C9: the return-value propagation stub checks the assignment shape
and parses the size expression but leaves the store unchanged for every
input. -/
theorem db_returns_buf_size_no_effect (parseMath : Expr → List Nat → Option Unit)
    (e : Expr) (param : Int) (math : List Nat) (store : Store) :
    db_returns_buf_size parseMath e param math store = store := by
  cases e <;> try rfl
  case assign op l r =>
    cases hp : parseMath (strip_expr r) math <;> simp [db_returns_buf_size, hp]

/-- Witness for C9 at a concrete assignment and parser. -/
theorem db_returns_buf_size_no_effect_witness :
    db_returns_buf_size (fun _ _ => some ()) (.assign 61 (.value 0) (.value 1)) 0 [] [] =
      ([] : Store) :=
  db_returns_buf_size_no_effect (fun _ _ => some ()) (.assign 61 (.value 0) (.value 1)) 0 [] []

/-- Claim C10: a tag state's display name is the signed-decimal rendering of
its stored 64-bit tag value, and for every tag below 2^63 — as every tag
`str_to_tag` produces is — that rendering is a nonnegative all-digit
decimal string that `atoll` parses back to exactly the stored tag. -/
theorem alloc_tag_state_decimal_round_trip (t : Nat) (h64 : t < 2 ^ 64) :
    (alloc_tag_state t).name = sprintfLLD t ∧
    (alloc_tag_state t).data = some t ∧
    (t < 2 ^ 63 →
      (alloc_tag_state t).name = renderNat t ∧
      (alloc_tag_state t).name.all (fun b => Nat.ble 48 b && Nat.ble b 57) = true ∧
      atoll (alloc_tag_state t).name = (t : Int)) := by
  refine ⟨alloc_tag_state_name t h64, rfl, fun h63 => ?_⟩
  have hn := alloc_tag_state_name63 t h63
  refine ⟨hn, ?_, ?_⟩
  · rw [hn, List.all_eq_true]
    intro b hb
    have hbb := renderNat_digit_bytes t b hb
    simp only [Bool.and_eq_true, Nat.ble_eq]
    omega
  · rw [hn]
    exact atoll_renderNat t

/-- Witness for C10 at a concrete tag value. -/
theorem alloc_tag_state_decimal_round_trip_witness :
    (12345 < 2 ^ 64) ∧
    ((alloc_tag_state 12345).name = sprintfLLD 12345 ∧
      (alloc_tag_state 12345).data = some 12345 ∧
      (12345 < 2 ^ 63 →
        (alloc_tag_state 12345).name = renderNat 12345 ∧
        (alloc_tag_state 12345).name.all (fun b => Nat.ble 48 b && Nat.ble b 57) = true ∧
        atoll (alloc_tag_state 12345).name = (12345 : Int))) :=
  ⟨by norm_num, alloc_tag_state_decimal_round_trip 12345 (by norm_num)⟩

/-- Claim C8 (amended): tag derivation is a pure function of the context
string — identical strings always yield identical tags — but the claimed
converse fails: the 63-bit tag space is finite while context strings are
not, so some two distinct strings share a tag. -/
theorem str_to_tag_deterministic_not_injective :
    (∀ s1 s2 : List Nat, s1 = s2 → str_to_tag s1 = str_to_tag s2) ∧
    (∃ s1 s2 : List Nat, s1 ≠ s2 ∧ str_to_tag s1 = str_to_tag s2) :=
  ⟨fun _ _ h => congrArg str_to_tag h, str_to_tag_exists_collision⟩

/-- Witness for C8's determinism half at a concrete string. -/
theorem str_to_tag_deterministic_not_injective_witness :
    str_to_tag acFileB = str_to_tag acFileB :=
  str_to_tag_deterministic_not_injective.1 acFileB acFileB rfl

/-- Claim C8 as stated is refuted: tag equality is not equivalent to
context-string equality, because the backward direction fails on some pair
of distinct strings. -/
theorem str_to_tag_iff_refuted :
    ¬(∀ s1 s2 : List Nat, str_to_tag s1 = str_to_tag s2 ↔ s1 = s2) := by
  intro hall
  obtain ⟨s1, s2, hne, he⟩ := str_to_tag_exists_collision
  exact hne ((hall s1 s2).mp he)

/-- Claim C7: at a call expression the emission half writes exactly one
caller-summary entry per positional argument with a bound tag state — keyed
by the argument's zero-based position, key the dollar byte, value the
decimal text of the tag — and no entry for any other argument. -/
theorem match_call_info_entries (lookup : Expr → Option SmatchState)
    (f : Expr) (args : List Expr)
    (h : ∀ a st, lookup a = some st → ∃ t, t < 2 ^ 63 ∧ st = alloc_tag_state t) :
    match_call_info lookup (.call f args) =
      args.enum.filterMap (fun p =>
        match lookup p.2 with
        | some st =>
          match st.data with
          | some t => some ⟨p.1, [36], renderNat t⟩
          | none => none
        | none => none) := by
  rw [match_call_info]
  rw [show argsOf (.call f args) = args from rfl]
  rw [match_call_aux_enumFrom lookup h args 0]
  rfl

/-- Witness for C7 at a concrete two-argument call. -/
theorem match_call_info_entries_witness :
    match_call_info lookupW (.call (.symbol none) [.value 0, .value 1]) =
      ([Expr.value 0, Expr.value 1]).enum.filterMap (fun p =>
        match lookupW p.2 with
        | some st =>
          match st.data with
          | some t => some ⟨p.1, [36], renderNat t⟩
          | none => none
        | none => none) :=
  match_call_info_entries lookupW (.symbol none) [.value 0, .value 1]
    (fun _ st hst => ⟨7, by norm_num, (Option.some.inj hst).symm⟩)

/-- Claim C1 (amended): a triggering `d = f(...)` assignment whose rendered
context string `"<file> <function> <dest> <source>"` fits the 256-byte
formatting buffer binds to the destination a tag state carrying exactly
`str_to_tag` of that space-joined string; longer context strings are
truncated to their first 255 bytes before hashing. -/
theorem alloc_assign_binds_context_tag (ctx : AllocCtx)
    (renderLS : Expr → Option (List Nat) × Option Nat)
    (renderR : Expr → Option (List Nat)) (fn : List Nat) (l r : Expr)
    (fs : Option CSymbol) (cargs : List Expr) (ln : List Nat) (ls : Nat) (rn : List Nat)
    (hcall : strip_expr r = .call (.symbol fs) cargs)
    (hln : (renderLS (strip_expr l)).1 = some ln)
    (hls : (renderLS (strip_expr l)).2 = some ls)
    (hrn : renderR (strip_expr r) = some rn)
    (hlen : (fmt4 ctx.filename ctx.function ln rn).length ≤ 255) :
    (alloc_assign ctx renderLS renderR fn (.assign 61 l r)).sets =
      [(ln, ls, alloc_tag_state (str_to_tag (fmt4 ctx.filename ctx.function ln rn)))] := by
  rw [hcall] at hrn
  simp only [alloc_assign, hcall, hln, hls, hrn, cstr, Option.getD_some, if_pos]
  rw [List.take_of_length_le hlen]

/-- Witness for C1: the spec's `struct dev *d = alloc_dev();` example in
function `probe` of file `drv.c` binds `derive_tag` of the documented
context string. -/
theorem alloc_assign_binds_context_tag_witness :
    (fmt4 drvFileB probeB dNameB allocDevB).length ≤ 255 ∧
    (alloc_assign drvCtx renderLSW renderRW allocDevB assignW).sets =
      [(dNameB, 0, alloc_tag_state (str_to_tag drvContextB))] := by
  have h2 : drvContextB = fmt4 drvFileB probeB dNameB allocDevB := by decide
  refine ⟨by decide, ?_⟩
  rw [h2]
  exact alloc_assign_binds_context_tag drvCtx renderLSW renderRW allocDevB
    (.symbol none) (.call (.symbol none) []) none [] dNameB 0 allocDevB
    rfl rfl rfl rfl (by decide)

/-- Claim C1 as stated is false for long contexts: with a 300-byte rendered
source expression the bound tag hashes only the first 255 bytes of the
context string, which differs from the tag of the full documented string. -/
theorem alloc_assign_truncation_cex :
    (alloc_assign drvCtx renderLSW renderRLong allocDevB assignW).sets ≠
      [(dNameB, 0, alloc_tag_state (str_to_tag (fmt4 drvFileB probeB dNameB longNameB)))] := by
  decide

/-- Claim C4 (amended): when the destination of a triggering assignment
does not resolve to a named variable binding with a known enclosing symbol,
no tag state is bound — but, contrary to the claimed step ordering, the tag
is still derived and one metadata record is still inserted for the
statement, because the metadata insertion precedes the destination check. -/
theorem alloc_assign_unresolved_dest (ctx : AllocCtx)
    (renderLS : Expr → Option (List Nat) × Option Nat)
    (renderR : Expr → Option (List Nat)) (fn : List Nat) (l r : Expr)
    (fs : Option CSymbol) (cargs : List Expr)
    (hcall : strip_expr r = .call (.symbol fs) cargs)
    (habort : (renderLS (strip_expr l)).1 = none ∨ (renderLS (strip_expr l)).2 = none) :
    (alloc_assign ctx renderLS renderR fn (.assign 61 l r)).sets = [] ∧
    (alloc_assign ctx renderLS renderR fn (.assign 61 l r)).metadata.length = 1 := by
  simp only [alloc_assign, hcall, if_pos]
  rcases h1 : (renderLS (strip_expr l)).1 with _ | ln <;>
    rcases h2 : (renderLS (strip_expr l)).2 with _ | ls <;>
    simp_all

/-- Witness for C4: a destination that renders but has no enclosing symbol
binds nothing yet still inserts one metadata row. -/
theorem alloc_assign_unresolved_dest_witness :
    (alloc_assign drvCtx renderLSNoSym renderRW allocDevB assignW).sets = [] ∧
    (alloc_assign drvCtx renderLSNoSym renderRW allocDevB assignW).metadata.length = 1 :=
  alloc_assign_unresolved_dest drvCtx renderLSNoSym renderRW allocDevB
    (.symbol none) (.call (.symbol none) []) none [] rfl (Or.inr rfl)

/-- Claim C4 as stated is false: on a triggering assignment with an
unresolvable destination a metadata record is nevertheless inserted. -/
theorem alloc_assign_metadata_inserted_cex :
    (alloc_assign drvCtx renderLSNoSym renderRW allocDevB assignW).metadata ≠ [] := by
  decide

/-- Claim C3 (amended): `get_toplevel_mtag` returns nothing for a NULL
symbol, a symbol without an identifier, or one without file-scope linkage;
for an eligible symbol whose `"<qualifier> <name>"` context string fits the
256-byte formatting buffer it returns `str_to_tag` of that string (longer
strings are hashed truncated to their first 255 bytes), the qualifier being
the literal `extern` token for external linkage and the containing file for
static linkage — so the static `foo` of `a.c` and the static `foo` of
`b.c` get different tags, while an external symbol gets the same tag from
every translation unit. -/
theorem get_toplevel_mtag_spec (filename : List Nat) (s : CSymbol) :
    (get_toplevel_mtag filename none = none) ∧
    (s.ident = none → get_toplevel_mtag filename (some s) = none) ∧
    (s.toplevel = false → get_toplevel_mtag filename (some s) = none) ∧
    (∀ nm, s.ident = some nm → s.toplevel = true →
      (fmt2 (if s.isStatic then filename else externBytes) nm).length ≤ 255 →
      get_toplevel_mtag filename (some s) =
        some (str_to_tag (fmt2 (if s.isStatic then filename else externBytes) nm))) ∧
    (str_to_tag (fmt2 acFileB fooB) ≠ str_to_tag (fmt2 bcFileB fooB)) ∧
    (∀ f1 f2, s.isStatic = false →
      get_toplevel_mtag f1 (some s) = get_toplevel_mtag f2 (some s)) := by
  refine ⟨rfl, ?_, ?_, ?_, by decide, ?_⟩
  · intro h
    simp [get_toplevel_mtag, h]
  · intro h
    rcases hi : s.ident with _ | nm <;> simp [get_toplevel_mtag, hi, h]
  · intro nm h1 h2 h3
    simp only [get_toplevel_mtag, h1, h2, if_true]
    rw [List.take_of_length_le h3]
  · intro f1 f2 h
    rcases hi : s.ident with _ | nm <;>
      rcases ht : s.toplevel with _ | _ <;>
      simp [get_toplevel_mtag, hi, ht, h]

/-- Witness for C3: the static `foo` of `a.c` tags as `str_to_tag` of the
documented qualifier-name string. -/
theorem get_toplevel_mtag_spec_witness :
    get_toplevel_mtag acFileB (some ⟨some fooB, true, true⟩) =
      some (str_to_tag (fmt2 acFileB fooB)) :=
  (get_toplevel_mtag_spec acFileB ⟨some fooB, true, true⟩).2.2.2.1 fooB rfl rfl (by decide)

/-- Claim C3 as stated is false for long names: an eligible static symbol
with a 300-byte identifier is tagged with the hash of the truncated
context string, not of the full `"<qualifier> <identifier-name>"`. -/
theorem get_toplevel_mtag_truncation_cex :
    get_toplevel_mtag acFileB (some ⟨some longNameB, true, true⟩) ≠
      some (str_to_tag (fmt2 acFileB longNameB)) := by
  decide

/-- Claim C2 (amended): end-to-end propagation round-trip.  For a call
argument carrying a bound tag state with tag `T`, the emission half writes
a caller-summary entry at that argument's position whose value is the
decimal text of `T`; the consumption half, given that entry, installs —
under the parameter name joined with the key remainder, truncated to the
255-byte capacity of its formatting buffer (the identity whenever the name
fits, as hypothesised here), scoped to the callee symbol — a fresh tag
state whose tag is again exactly `T`, decoded from the decimal text without
re-hashing. -/
theorem tag_propagation_round_trip (lookup : Expr → Option SmatchState)
    (f arg : Expr) (args : List Expr) (i : Nat) (T : Nat) (pname : List Nat)
    (sym : Nat) (store : Store)
    (hget : args[i]? = some arg)
    (hst : lookup arg = some (alloc_tag_state T))
    (hT : T < 2 ^ 63)
    (hlen : pname.length ≤ 255) :
    (⟨i, [36], (alloc_tag_state T).name⟩ : CallerEntry) ∈
        match_call_info lookup (.call f args) ∧
    save_caller_info pname sym [36] ((alloc_tag_state T).name) store =
      set_state pname sym (alloc_tag_state T) store := by
  constructor
  · have hmem := match_call_aux_mem lookup args i 0 arg (alloc_tag_state T) hget hst rfl
    simpa [match_call_info, argsOf] using hmem
  · have hkey : (List.take 1 [36] : List Nat) = [36] := rfl
    rw [save_caller_info, if_pos hkey]
    rw [alloc_tag_state_name63 T hT, atoll_renderNat T]
    have hmod : ((T : Int) % (2 ^ 64 : Int)) = (T : Int) := by
      apply Int.emod_eq_of_lt (Int.ofNat_nonneg T)
      exact_mod_cast lt_trans hT (by norm_num : (2 : Nat) ^ 63 < 2 ^ 64)
    rw [hmod, Int.toNat_natCast]
    have hfull : ((pname ++ ([36] : List Nat).drop 1)).take 255 = pname := by
      simp only [List.drop_succ_cons, List.drop_nil, List.append_nil]
      exact List.take_of_length_le hlen
    rw [hfull]

/-- Witness for C2 at a concrete argument, tag 7 and parameter name. -/
theorem tag_propagation_round_trip_witness :
    ((7 : Nat) < 2 ^ 63) ∧
    ((⟨0, [36], (alloc_tag_state 7).name⟩ : CallerEntry) ∈
        match_call_info lookupW (.call (.symbol none) [.value 0]) ∧
      save_caller_info dNameB 1 [36] ((alloc_tag_state 7).name) [] =
        set_state dNameB 1 (alloc_tag_state 7) []) :=
  ⟨by norm_num,
   tag_propagation_round_trip lookupW (.symbol none) (.value 0) [.value 0] 0 7 dNameB 1 []
     rfl rfl (by norm_num) (by decide)⟩

/-- Claim C2 as stated is false for long parameter names: the consumption
half installs the state under the 255-byte truncation of
`<formal-parameter-name><remainder-of-key>`, not under the full name. -/
theorem save_caller_info_truncation_cex :
    save_caller_info longNameB 0 [36] (renderNat 7) [] ≠
      [(longNameB, 0, alloc_tag_state 7)] := by
  decide
